import Mathlib

/-!
Verification of the measurement data-processing core of the QCL
characterization manager.

The C++ source is embedded shallowly over exact rationals (ℚ stands for
the `double` values flowing through the arithmetic; the transcendental
steps of the exponential fit are modelled over ℝ).  Each definition below
is a direct translation of the function of the same name in
`src/core/dataprocessing` or `src/core/graceplots`.

Modelling conventions:
  * `std::sort` guarantees only that its output is a permutation of the
    input ordered by the comparator; where tie order can matter (the
    trace-level sort by label) the sort is embedded as the relation
    `SortedByLabelPerm`, and where only order-independent facts are
    proved (the row-level sort inside one file) `List.mergeSort` is used
    as one admissible refinement of that contract.
  * sentinel initialisations with `std::numeric_limits` (lowest/max) are
    modelled with `Option` folds: `none` plays the role of the untouched
    sentinel, which the source never observes.
  * `NaN` results of the half-maximum search are modelled as `none`.
-/

/-- Noise floor 0.005: rows whose first column is ≤ this are dropped. -/
def noiseFloor : ℚ := 1 / 200

/-- Wavenumber→THz conversion factor 0.0299792458 used by the spectra parser. -/
def thzConv : ℚ := 299792458 / 10000000000

/-- C++ std::round: round half away from zero, as an integer result. -/
def cppRound (q : ℚ) : ℤ :=
  if q < 0 then -⌊-q + 1 / 2⌋ else ⌊q + 1 / 2⌋

/-- First maximum of a list (value), 0 on the empty list; models
`*std::max_element` on a nonempty vector. -/
def listMax : List ℚ → ℚ
  | [] => 0
  | h :: t => t.foldl max h

/-- First minimum of a list (value), 0 on the empty list; models
`*std::min_element` on a nonempty vector. -/
def listMin : List ℚ → ℚ
  | [] => 0
  | h :: t => t.foldl min h

/-- One row of `LIVDataProcessor::generateVectorsFromFile`: keep the line iff
it has exactly three whitespace-separated fields and the first (current)
field exceeds the noise floor. -/
def livRow (fields : List ℚ) : Option (ℚ × ℚ × ℚ) :=
  match fields with
  | [a, b, c] => if a ≤ noiseFloor then none else some (a, b, c)
  | _ => none

/-- LIVDataProcessor::generateVectorsFromFile: filter rows, then sort the
surviving points ascending by the current (x) value. -/
def livParseRows (rows : List (List ℚ)) : List (ℚ × ℚ × ℚ) :=
  (rows.filterMap livRow).mergeSort (fun p q => p.1 ≤ q.1)

/-- One row of `SpectraDataProcessor::generateVectorsFromFile`: keep the line
iff it has exactly two fields; the first field is multiplied by the THz
conversion factor before the noise-floor test. -/
def spectraRow (fields : List ℚ) : Option (ℚ × ℚ) :=
  match fields with
  | [a, b] =>
    let x := a * thzConv
    if x ≤ noiseFloor then none else some (x, b)
  | _ => none

/-- SpectraDataProcessor::generateVectorsFromFile: filter and convert rows in
file order (the spectra parser performs no sort). -/
def spectraParseRows (rows : List (List ℚ)) : List (ℚ × ℚ) :=
  rows.filterMap spectraRow

/-- Candidate tick-step multipliers tried in order by `chooseNiceStep`. -/
def niceStepBases : List ℚ := [1, 2, 5 / 2, 5, 10]

/-- LIVGracePlot::chooseNiceStep / IthGracePlot::chooseNiceStep (identical
bodies): pick the first base in {1, 2, 2.5, 5, 10} scaled by the decimal
magnitude of range/maxTicks whose tick count fits, falling back to ten
times the magnitude.  `floor (log10 r)` for `r > 0` is `Int.log 10 r`. -/
def chooseNiceStep (minVal maxVal : ℚ) (maxTicks : ℤ) : ℚ :=
  let range := maxVal - minVal
  if range ≤ 0 then 1
  else
    let roughStep := range / (maxTicks : ℚ)
    let magnitude : ℚ := (10 : ℚ) ^ Int.log 10 roughStep
    match niceStepBases.find? (fun base =>
        decide ((maxVal - minVal) / (base * magnitude) ≤ (maxTicks : ℚ))) with
    | some base => base * magnitude
    | none => 10 * magnitude

/-- Spectral peak record `Peak {frequency, amplitude, fwhm, qFactor}`. -/
structure Peak where
  frequency : ℚ
  amplitude : ℚ
  fwhm : ℚ
  qFactor : ℚ
deriving DecidableEq

instance : Inhabited Peak := ⟨⟨0, 0, 0, 0⟩⟩

/-- SpectraDataProcessor::adjustRange: step = range/numTicks, shift the window
so that `targetFreq` lands on the tick grid; returns
(adjustedXmin, adjustedXmax, step). -/
def adjustRange (xmin xmax targetFreq : ℚ) (numTicks : ℤ) : ℚ × ℚ × ℚ :=
  let step := (xmax - xmin) / (numTicks : ℚ)
  let offsetTicks := cppRound ((targetFreq - xmin) / step)
  let adjustedXmin := targetFreq - (offsetTicks : ℚ) * step
  (adjustedXmin, adjustedXmin + (numTicks : ℚ) * step, step)

/-- The observable state of a SpectraDataProcessor as far as the x-range
getters are concerned: caller bounds, per-trace peak data, and the raw
trace lists (only their emptiness is consulted by the getters). -/
structure SpectraRangeState where
  fmin : ℚ
  fmax : ℚ
  centerModeData : List Peak
  sideModeData : List (List Peak)
  xList : List (List ℚ)
  y1List : List (List ℚ)

/-- The peak window fold shared by getXmin/getXmax: seeded from the FIRST
trace's center mode, expanded over every side mode with amplitude > 0.15. -/
def peakWindow (st : SpectraRangeState) : ℚ × ℚ :=
  let c0 := st.centerModeData.headD default
  st.sideModeData.foldl
    (fun acc peaks =>
      peaks.foldl
        (fun mm p =>
          if 3 / 20 < p.amplitude then
            (min mm.1 (p.frequency - p.fwhm), max mm.2 (p.frequency + p.fwhm))
          else mm)
        acc)
    (c0.frequency - c0.fwhm, c0.frequency + c0.fwhm)

/-- Lowest center-mode frequency across all traces (fold over
centerModeData seeded with the first entry). -/
def lowestF0 (st : SpectraRangeState) : ℚ :=
  st.centerModeData.foldl
    (fun acc c => if c.frequency < acc then c.frequency else acc)
    (st.centerModeData.headD default).frequency

/-- SpectraDataProcessor::getXmin. -/
def getXmin (st : SpectraRangeState) : ℚ :=
  if st.fmin ≠ 0 then st.fmin
  else if st.centerModeData = [] ∨ st.xList = [] ∨ st.y1List = [] then 0
  else
    let w := peakWindow st
    (adjustRange (w.1 - 1 / 50) (w.2 + 1 / 50) (lowestF0 st) 6).1

/-- SpectraDataProcessor::getXmax. -/
def getXmax (st : SpectraRangeState) : ℚ :=
  if st.fmax ≠ 0 then st.fmax
  else if st.centerModeData = [] ∨ st.xList = [] ∨ st.y1List = [] then 0
  else
    let w := peakWindow st
    (adjustRange (w.1 - 1 / 50) (w.2 + 1 / 50) (lowestF0 st) 6).2.1

/-- Postcondition of `std::sort` with comparator `label a < label b`: the
output is a permutation of the input that is nondecreasing in the label.
Tie order is NOT constrained (std::sort, unlike std::stable_sort, leaves
the relative order of equivalent elements unspecified). -/
def SortedByLabelPerm {α : Type} (label : α → ℚ) (inp out : List α) : Prop :=
  inp.Perm out ∧ out.Pairwise (fun a b => label a ≤ label b)

/-- One parsed LIV trace: the label string parsed as a double, and the
three column vectors returned by the file parser. -/
structure LivTrace where
  label : ℚ
  x : List ℚ
  y1 : List ℚ
  y2 : List ℚ
deriving DecidableEq

/-- Global pre-normalization maximum of y2 across all traces
(`preNormMaxY2`): per trace, nonempty y2 vectors contribute their maximum;
`none` models the untouched `std::numeric_limits<double>::lowest()`
sentinel. -/
def livGlobalMaxY2 (ts : List LivTrace) : Option ℚ :=
  ts.foldl
    (fun acc t =>
      if t.y2 = [] then acc
      else
        match acc with
        | none => some (listMax t.y2)
        | some m => some (max m (listMax t.y2)))
    none

/-- Reference used by LIVDataProcessor::normalizeData: the global maximum,
or 1.0 if that maximum is exactly 0.  When no y2 value exists at all the
C++ sentinel survives but is never applied to any value; `1` is returned
in that vacuous case. -/
def livReferenceNorm (ts : List LivTrace) : ℚ :=
  match livGlobalMaxY2 ts with
  | none => 1
  | some m => if m = 0 then 1 else m

/-- LIVDataProcessor::normalizeData: scale every y2 value of every trace by
`scaleFactor / referenceNorm`, with one global reference for the set. -/
def livNormalizeData (ts : List LivTrace) (scaleFactor : ℚ) : List LivTrace :=
  let ref := livReferenceNorm ts
  ts.map (fun t => { t with y2 := t.y2.map (fun v => v / ref * scaleFactor) })

/-- Default value of the constructor's scaleFactor parameter
(`double scaleFactor = 100.0` in LIVDataProcessor.h). -/
def livDefaultScaleFactor : ℚ := 100

/-- Full LIV construction relation: the traces are sorted by label under the
std::sort contract and then normalized in place. -/
def LivConstruct (inp : List LivTrace) (scaleFactor : ℚ) (out : List LivTrace) : Prop :=
  ∃ sorted, SortedByLabelPerm LivTrace.label inp sorted ∧
    out = livNormalizeData sorted scaleFactor

/-- Input to IthDataProcessor::process for one trace: parsed label (a
temperature), drive currents I = xList entry, and normalized optical
output L = y2List entry. -/
structure IthTrace where
  label : ℚ
  I : List ℚ
  L : List ℚ

/-- Running min over qualifying currents, `none` for the untouched
`std::numeric_limits<double>::max()` sentinel. -/
def updMin (acc : Option ℚ) (v : ℚ) : Option ℚ :=
  match acc with
  | none => some v
  | some m => some (min m v)

/-- Running max over qualifying currents, `none` for the untouched
`std::numeric_limits<double>::lowest()` sentinel. -/
def updMax (acc : Option ℚ) (v : ℚ) : Option ℚ :=
  match acc with
  | none => some v
  | some m => some (max m v)

/-- IthDataProcessor::process, one output entry (T, Ith, DR) per surviving
trace, in input order: skip a trace when I and L lengths differ or when no
L value reaches the threshold; otherwise Ith is the current at the first
threshold crossing and DR is (max - min) of qualifying currents times 1000. -/
def ithProcess (threshold : ℚ) : List IthTrace → List (ℚ × ℚ × ℚ)
  | [] => []
  | t :: rest =>
    if t.I.length ≠ t.L.length then ithProcess threshold rest
    else
      match t.L.findIdx? (fun l => threshold ≤ l) with
      | none => ithProcess threshold rest
      | some j =>
        let mm := (t.I.zip t.L).foldl
          (fun (acc : Option ℚ × Option ℚ) p =>
            if threshold ≤ p.2 then (updMin acc.1 p.1, updMax acc.2 p.1) else acc)
          (none, none)
        (t.label, t.I.getD j 0, ((mm.2.getD 0) - (mm.1.getD 0)) * 1000) ::
          ithProcess threshold rest

/-- IthDataProcessor::linspace, with its single division made explicit as an
error branch: the C++ divides by `numPoints - 1` unguarded. -/
def linspaceE (start stop : ℚ) (numPoints : ℤ) : Except Unit (List ℚ) :=
  if numPoints - 1 = 0 then Except.error ()
  else
    let step := (stop - start) / ((numPoints : ℚ) - 1)
    Except.ok ((List.range numPoints.toNat).map (fun i => start + (i : ℚ) * step))

/-- Index of the max-magnitude pivot in column `i`, scanning rows i+1..order
and keeping the earliest maximum (`>` update), as in the C++ pivot search. -/
def pivotRow (M : List (List ℚ)) (i order : ℕ) : ℕ :=
  (List.range' (i + 1) (order - i)).foldl
    (fun mr j =>
      if |(M.getD j []).getD i 0| > |(M.getD mr []).getD i 0| then j else mr)
    i

/-- Swap rows `a` and `b` of a matrix. -/
def swapRows (M : List (List ℚ)) (a b : ℕ) : List (List ℚ) :=
  M.mapIdx (fun k row => if k = a then M.getD b [] else if k = b then M.getD a [] else row)

/-- One forward-elimination step of the Gaussian solve: pivot, swap, and
eliminate column `i` below the pivot (entries with column index ≥ i only,
as in the C++ inner loop). -/
def elimStep (M : List (List ℚ)) (order i : ℕ) : List (List ℚ) :=
  let Mp := swapRows M i (pivotRow M i order)
  let pivotVal := (Mp.getD i []).getD i 0
  Mp.mapIdx (fun j row =>
    if i < j then
      let factor := row.getD i 0 / pivotVal
      row.mapIdx (fun k v => if i ≤ k then v - (Mp.getD i []).getD k 0 * factor else v)
    else row)

/-- Back substitution: computes coefficient `i` and subtracts its
contribution from the augmented column of the rows above. -/
def backSubStep (M : List (List ℚ)) (order i : ℕ) : ℚ × List (List ℚ) :=
  let ci := (M.getD i []).getD (order + 1) 0 / (M.getD i []).getD i 0
  (ci,
    M.mapIdx (fun j row =>
      if j < i then
        row.mapIdx (fun k v => if k = order + 1 then v - row.getD i 0 * ci else v)
      else row))

/-- Back substitution loop, i = fuel-1 down to 0, returning coefficients in
ascending power order. -/
def backSubGo (M : List (List ℚ)) (order : ℕ) : ℕ → List ℚ
  | 0 => []
  | fuel + 1 =>
    let s := backSubStep M order fuel
    backSubGo s.2 order fuel ++ [s.1]

/-- IthDataProcessor::polynomialFit: Vandermonde matrix, normal equations,
Gaussian elimination with partial pivoting, back substitution.  `none`
models the `false` return when n ≤ order. -/
def polynomialFit (x y : List ℚ) (order : ℕ) : Option (List ℚ) :=
  let n := x.length
  if n ≤ order then none
  else
    let X : List (List ℚ) :=
      x.map (fun xi => (List.range (order + 1)).map (fun j => xi ^ j))
    let XtX : List (List ℚ) :=
      (List.range (order + 1)).map (fun i =>
        (List.range (order + 1)).map (fun j =>
          (X.map (fun row => row.getD i 0 * row.getD j 0)).sum))
    let XtY : List ℚ :=
      (List.range (order + 1)).map (fun i =>
        ((X.zip y).map (fun p => p.1.getD i 0 * p.2)).sum)
    let augmented : List (List ℚ) :=
      (XtX.zip XtY).map (fun p => p.1 ++ [p.2])
    let reduced := (List.range (order + 1)).foldl (fun M i => elimStep M order i) augmented
    some (backSubGo reduced order (order + 1))

/-- IthDataProcessor::exponentialFit modelling `y = A exp(B x) + C0`:
guards are exact rational tests, the log-linearized least squares is over
ℝ.  `none` models every `return false`. -/
noncomputable def exponentialFit (x y : List ℚ) : Option (ℝ × ℝ × ℝ) :=
  let n := x.length
  if n < 2 then none
  else
    let ymin := listMin y
    let yadj := (List.range n).map (fun i => y.getD i 0 - 99 / 100 * ymin)
    if ¬ ∀ v ∈ yadj, 0 < v then none
    else
      let logy : List ℝ := yadj.map (fun (v : ℚ) => Real.log (v : ℝ))
      let sumX : ℚ := x.sum
      let sumY : ℝ := logy.sum
      let sumXX : ℚ := (x.map (fun v => v * v)).sum
      let sumXY : ℝ := ((x.zip logy).map (fun p => (p.1 : ℝ) * p.2)).sum
      let denominator : ℚ := (n : ℚ) * sumXX - sumX * sumX
      if denominator = 0 then none
      else
        let B : ℝ := ((n : ℝ) * sumXY - (sumX : ℝ) * sumY) / (denominator : ℝ)
        let lnA : ℝ := (sumY - B * (sumX : ℝ)) / (n : ℝ)
        some (Real.exp lnA, B, (ymin : ℝ))

/-- IthDataProcessor::applyExponentialFit with the unchecked accesses made
explicit: `T.first()/T.last()` on an empty T and linspace's division are
the only error branches; a failed fit returns an empty curve, not an error. -/
noncomputable def applyExponentialFitE (T Ith : List ℚ) (numPoints : ℤ) :
    Except Unit (List ℚ × List ℝ) :=
  match T with
  | [] => Except.error ()
  | t0 :: _ =>
    match linspaceE t0 (T.getLastD 0) numPoints with
    | Except.error e => Except.error e
    | Except.ok Tfit =>
      match exponentialFit T Ith with
      | none => Except.ok (Tfit, [])
      | some (A, B, C0) =>
        Except.ok (Tfit, Tfit.map (fun (t : ℚ) => A * Real.exp (B * (t : ℝ)) + C0))

/-- IthDataProcessor::applyPolynomialFit with the unchecked accesses made
explicit, mirroring `applyExponentialFitE`. -/
def applyPolynomialFitE (T Ith : List ℚ) (numPoints : ℤ) (order : ℕ) :
    Except Unit (List ℚ × List ℚ) :=
  match T with
  | [] => Except.error ()
  | t0 :: _ =>
    match linspaceE t0 (T.getLastD 0) numPoints with
    | Except.error e => Except.error e
    | Except.ok Tfit =>
      match polynomialFit T Ith order with
      | none => Except.ok (Tfit, [])
      | some coefficients =>
        Except.ok (Tfit, Tfit.map (fun t =>
          ((List.range coefficients.length).map
            (fun j => coefficients.getD j 0 * t ^ j)).sum))

/-- findClosestIndex: index of the element of `vec` closest to `target`
(first one on ties, strict `<` update), -1 on the empty vector. -/
def findClosestIndex (vec : List ℚ) (target : ℚ) : ℤ :=
  match vec with
  | [] => -1
  | v0 :: _ =>
    (vec.enum.foldl
      (fun (acc : ℕ × ℚ) p =>
        if |p.2 - target| < acc.2 then (p.1, |p.2 - target|) else acc)
      (0, |v0 - target|)).1

/-- SpectraDataProcessor::smooth value at index `i`: symmetric moving
average clipped to the vector bounds. -/
def smoothAt (y : List ℚ) (halfWindow : ℤ) (i : ℤ) : ℚ :=
  let first := max 0 (i - halfWindow)
  let last := min ((y.length : ℤ) - 1) (i + halfWindow)
  let idxs := (List.range (last - first + 1).toNat).map (fun k => first + (k : ℤ))
  (idxs.map (fun j => y.getD j.toNat 0)).sum / (idxs.length : ℚ)

/-- SpectraDataProcessor::smooth: moving average with the given window
(window 5 gives halfWindow 2, the only window used by the source). -/
def smooth (y : List ℚ) (windowSize : ℤ) : List ℚ :=
  (List.range y.length).map (fun i => smoothAt y (windowSize / 2) (i : ℤ))

/-- SpectraDataProcessor::isProminentPeak: the value at `index` must exceed
the larger of the left/right local minima within ±10 samples by at least
`minProminence`. -/
def isProminentPeak (y : List ℚ) (index : ℤ) (minProminence : ℚ) : Bool :=
  if index < 0 ∨ (y.length : ℤ) ≤ index then false
  else
    let v := y.getD index.toNat 0
    let first := max 0 (index - 10)
    let last := min ((y.length : ℤ) - 1) (index + 10)
    let leftIdxs := (List.range (index - first).toNat).map (fun k => first + (k : ℤ))
    let rightIdxs := (List.range (last - index).toNat).map (fun k => index + 1 + (k : ℤ))
    let leftMin := (leftIdxs.map (fun j => y.getD j.toNat 0)).foldl min v
    let rightMin := (rightIdxs.map (fun j => y.getD j.toNat 0)).foldl min v
    decide (minProminence ≤ v - max leftMin rightMin)

/-- Index of the first maximal element of `y` (std::max_element semantics);
0 on the empty list. -/
def maxElemIdx (y : List ℚ) : ℕ :=
  match y with
  | [] => 0
  | v0 :: _ =>
    (y.enum.foldl
      (fun (acc : ℕ × ℚ) p => if acc.2 < p.2 then (p.1, p.2) else acc)
      (0, v0)).1

/-- SpectraDataProcessor::findCenterMode: frequency at the global amplitude
maximum. -/
def findCenterMode (x y1 : List ℚ) : ℚ :=
  x.getD (maxElemIdx y1) 0

/-- SpectraDataProcessor::interpolateHalfMaxCrossing. -/
def interpolateHalfMaxCrossing (x1 y1 x2 y2 halfMax : ℚ) : ℚ :=
  if x1 = x2 ∨ y1 = y2 then x1
  else
    let slope := (y2 - y1) / (x2 - x1)
    x1 + (halfMax - y1) / slope

/-- SpectraDataProcessor::findLeftHalfMaxCrossing: scan left from the peak
index for a sign change through `halfMax`; `none` models the NaN
not-found result. -/
def findLeftHalfMaxCrossing (x y : List ℚ) (halfMax : ℚ) : ℕ → Option ℚ
  | 0 => none
  | i + 1 =>
    let yi := y.getD (i + 1) 0
    let yim := y.getD i 0
    if (halfMax ≤ yi ∧ yim < halfMax) ∨ (yi ≤ halfMax ∧ halfMax < yim) then
      some (interpolateHalfMaxCrossing (x.getD (i + 1) 0) yi (x.getD i 0) yim halfMax)
    else
      findLeftHalfMaxCrossing x y halfMax i

/-- SpectraDataProcessor::findRightHalfMaxCrossing: scan right from the peak
index; `none` models the NaN not-found result. -/
def findRightHalfMaxCrossing (x y : List ℚ) (halfMax : ℚ) (i : ℕ) : Option ℚ :=
  if h : i + 1 < x.length then
    let yi := y.getD i 0
    let yip := y.getD (i + 1) 0
    if (halfMax ≤ yi ∧ yip < halfMax) ∨ (yi ≤ halfMax ∧ halfMax < yip) then
      some (interpolateHalfMaxCrossing (x.getD i 0) yi (x.getD (i + 1) 0) yip halfMax)
    else
      findRightHalfMaxCrossing x y halfMax (i + 1)
  else none
termination_by x.length - i

/-- SpectraDataProcessor::calculateFWHM: width between the interpolated
half-maximum crossings, 0 when the peak is not found, a crossing is
missing, or the crossings coincide. -/
def calculateFWHM (x y : List ℚ) (peakFreq : ℚ) : ℚ :=
  let pk := findClosestIndex x peakFreq
  if pk = -1 then 0
  else
    let peakAmplitude := y.getD pk.toNat 0
    let halfMax := peakAmplitude / 2
    match findLeftHalfMaxCrossing x y halfMax pk.toNat,
          findRightHalfMaxCrossing x y halfMax pk.toNat with
    | some leftFreq, some rightFreq =>
      if leftFreq = rightFreq then 0 else |rightFreq - leftFreq|
    | _, _ => 0

/-- SpectraDataProcessor::calculateQFactor: f0/fwhm, or 0 for fwhm ≤ 0. -/
def calculateQFactor (f0 fwhm : ℚ) : ℚ :=
  if fwhm ≤ 0 then 0 else f0 / fwhm

/-- SpectraDataProcessor::findSideModes: local maxima of the smoothed
amplitude above `threshold`·max that pass the prominence test, with FWHM
computed from the raw x against the smoothed y, kept only if FWHM > 0. -/
def findSideModes (x y1 : List ℚ) (threshold : ℚ) : List Peak :=
  if y1 = [] then []
  else
    let ySmooth := smooth y1 5
    let maxAmp := listMax ySmooth
    if maxAmp = 0 then []
    else
      let minPeakHeight := threshold * maxAmp
      let minProminence := 1 / 20 * maxAmp
      (List.range' 1 (ySmooth.length - 2)).filterMap (fun i =>
        if minPeakHeight < ySmooth.getD i 0 ∧
           ySmooth.getD (i - 1) 0 < ySmooth.getD i 0 ∧
           ySmooth.getD (i + 1) 0 < ySmooth.getD i 0 ∧
           isProminentPeak ySmooth (i : ℤ) minProminence then
          let f0 := x.getD i 0
          let amp := ySmooth.getD i 0
          let fwhm := calculateFWHM x ySmooth f0
          if 0 < fwhm then some ⟨f0, amp, fwhm, calculateQFactor f0 fwhm⟩ else none
        else none)

/-- One parsed spectra trace (label parsed as a double, frequency and
amplitude columns as returned by the file parser). -/
structure SpecTrace where
  label : ℚ
  x : List ℚ
  y1 : List ℚ
deriving DecidableEq

/-- Center-mode Peak stored for one trace in generateVectors step 4: the
amplitude is the raw (pre-normalization) maximum of y1. -/
def centerPeakOf (x y : List ℚ) : Peak :=
  let centerFreq := findCenterMode x y
  let fwhm := calculateFWHM x y centerFreq
  ⟨centerFreq, listMax y, fwhm, calculateQFactor centerFreq fwhm⟩

/-- Side-mode Peaks stored for one trace: findSideModes at threshold 0.15,
with any peak within 1e-6 of the center frequency removed. -/
def sideModesOf (x y : List ℚ) : List Peak :=
  (findSideModes x y (3 / 20)).filter
    (fun p => ¬ |p.frequency - findCenterMode x y| < 1 / 1000000)

/-- SpectraDataProcessor::ensureAscendingX on one trace: reverse both
columns when the x column starts above where it ends. -/
def ensureAsc (t : SpecTrace) : SpecTrace :=
  if t.x.length < 2 then t
  else if t.x.getLastD 0 < t.x.headD 0 then
    { t with x := t.x.reverse, y1 := t.y1.reverse }
  else t

/-- SpectraDataProcessor::normalizeData on one trace: divide y1 by its own
per-trace maximum, when the trace is nonempty and the maximum is nonzero. -/
def normSpecTrace (t : SpecTrace) : SpecTrace :=
  if t.y1 = [] then t
  else
    let maxVal := listMax t.y1
    if maxVal = 0 then t else { t with y1 := t.y1.map (fun v => v / maxVal) }

/-- Observable state of a SpectraDataProcessor after construction. -/
structure SpectraState where
  valueList : List ℚ
  xList : List (List ℚ)
  y1List : List (List ℚ)
  centerModeData : List Peak
  sideModeData : List (List Peak)

/-- The constructor pipeline applied to the already-sorted trace list:
peak detection first (on raw, possibly descending data), then
ensureAscendingX, then per-trace normalization. -/
def spectraBuild (ts : List SpecTrace) : SpectraState :=
  let centers := ts.map (fun t => centerPeakOf t.x t.y1)
  let sides := ts.map (fun t => sideModesOf t.x t.y1)
  let final := ts.map (fun t => normSpecTrace (ensureAsc t))
  ⟨ts.map SpecTrace.label, final.map SpecTrace.x, final.map SpecTrace.y1,
    centers, sides⟩

/-- Full spectra construction relation: trace-level std::sort contract
followed by the deterministic pipeline. -/
def SpectraConstruct (inp : List SpecTrace) (st : SpectraState) : Prop :=
  ∃ sorted, SortedByLabelPerm SpecTrace.label inp sorted ∧ st = spectraBuild sorted

/-- On a strictly ascending list, everything strictly below the element
returned by `find?` fails the predicate (find? returns the first hit). -/
theorem find_first_false_of_ascending {p : ℚ → Bool} :
    ∀ (l : List ℚ), l.Pairwise (fun u v => u < v) → ∀ (a : ℚ), l.find? p = some a →
      ∀ b ∈ l, b < a → p b = false := by
  intro l
  induction l with
  | nil => intro _ a h; simp at h
  | cons x xs ih =>
    intro hp a h b hb hba
    rcases List.pairwise_cons.mp hp with ⟨hx, hxs⟩
    by_cases hpx : p x = true
    · rw [List.find?_cons_of_pos _ hpx] at h
      injection h with h
      subst h
      rcases List.mem_cons.mp hb with rfl | hbx
      · exact absurd hba (lt_irrefl _)
      · exact absurd (lt_trans hba (hx b hbx)) (lt_irrefl _)
    · have hpx2 : p x = false := by simpa using hpx
      rw [List.find?_cons_of_neg _ (by simp [hpx2])] at h
      rcases List.mem_cons.mp hb with rfl | hbx
      · exact hpx2
      · exact ih hxs a h b hbx hba

/-- Unfolding equation for `chooseNiceStep` on a positive range. -/
theorem chooseNiceStep_eq_find (minVal maxVal : ℚ) (maxTicks : ℤ)
    (h : ¬ maxVal - minVal ≤ 0) :
    chooseNiceStep minVal maxVal maxTicks =
      match niceStepBases.find? (fun base =>
          decide ((maxVal - minVal) /
            (base * (10 : ℚ) ^ Int.log 10 ((maxVal - minVal) / (maxTicks : ℚ))) ≤
              (maxTicks : ℚ))) with
      | some base => base * (10 : ℚ) ^ Int.log 10 ((maxVal - minVal) / (maxTicks : ℚ))
      | none => 10 * (10 : ℚ) ^ Int.log 10 ((maxVal - minVal) / (maxTicks : ℚ)) := by
  simp only [chooseNiceStep, if_neg h]

/-- C4: for max > min and a positive tick budget, chooseNiceStep returns the
first candidate base·10^⌊log10(range/maxTicks)⌋ with base drawn in order
from {1, 2, 2.5, 5, 10} whose tick count fits, hence a step in
{1,2,2.5,5,10}·10^n with ⌈range/step⌉ ≤ maxTicks; chooseNiceStep 0 97 7 =
20; and a non-positive range returns 1.0. -/
theorem chooseNiceStep_spec :
    (∀ minVal maxVal : ℚ, ∀ maxTicks : ℤ, minVal < maxVal → 0 < maxTicks →
      ∃ base ∈ niceStepBases,
        chooseNiceStep minVal maxVal maxTicks =
          base * (10 : ℚ) ^ Int.log 10 ((maxVal - minVal) / (maxTicks : ℚ)) ∧
        (maxVal - minVal) / chooseNiceStep minVal maxVal maxTicks ≤ (maxTicks : ℚ) ∧
        ⌈(maxVal - minVal) / chooseNiceStep minVal maxVal maxTicks⌉ ≤ maxTicks ∧
        ∀ b ∈ niceStepBases, b < base →
          (maxTicks : ℚ) <
            (maxVal - minVal) /
              (b * (10 : ℚ) ^ Int.log 10 ((maxVal - minVal) / (maxTicks : ℚ)))) ∧
    chooseNiceStep 0 97 7 = 20 ∧
    (∀ minVal maxVal : ℚ, ∀ maxTicks : ℤ, maxVal - minVal ≤ 0 →
      chooseNiceStep minVal maxVal maxTicks = 1) := by
  refine ⟨?_, ?_, ?_⟩
  · intro minVal maxVal maxTicks hlt hmt
    have hr : 0 < maxVal - minVal := sub_pos.mpr hlt
    have hrn : ¬ maxVal - minVal ≤ 0 := not_le.mpr hr
    have hmtq : (0 : ℚ) < (maxTicks : ℚ) := by exact_mod_cast hmt
    have hrough : 0 < (maxVal - minVal) / (maxTicks : ℚ) := div_pos hr hmtq
    have hmagpos : (0 : ℚ) <
        (10 : ℚ) ^ Int.log 10 ((maxVal - minVal) / (maxTicks : ℚ)) :=
      zpow_pos (by norm_num) _
    have hmagle : (10 : ℚ) ^ Int.log 10 ((maxVal - minVal) / (maxTicks : ℚ)) ≤
        (maxVal - minVal) / (maxTicks : ℚ) := by
      have := @Int.zpow_log_le_self ℚ _ _ 10 _ (by norm_num) hrough
      simpa using this
    have hmaggt : (maxVal - minVal) / (maxTicks : ℚ) <
        10 * (10 : ℚ) ^ Int.log 10 ((maxVal - minVal) / (maxTicks : ℚ)) := by
      have h2 := @Int.lt_zpow_succ_log_self ℚ _ _ 10 (by norm_num)
        ((maxVal - minVal) / (maxTicks : ℚ))
      rw [show ((10 : ℕ) : ℚ) = 10 by norm_num,
        zpow_add_one₀ (by norm_num : (10 : ℚ) ≠ 0)] at h2
      simpa [mul_comm] using h2
    have hpred10 : (maxVal - minVal) /
        (10 * (10 : ℚ) ^ Int.log 10 ((maxVal - minVal) / (maxTicks : ℚ))) ≤
          (maxTicks : ℚ) := by
      have hlt2 : (maxVal - minVal) /
          (10 * (10 : ℚ) ^ Int.log 10 ((maxVal - minVal) / (maxTicks : ℚ))) <
            (maxVal - minVal) / ((maxVal - minVal) / (maxTicks : ℚ)) :=
        div_lt_div_of_pos_left hr hrough hmaggt
      have hcancel : (maxVal - minVal) / ((maxVal - minVal) / (maxTicks : ℚ)) =
          (maxTicks : ℚ) := by
        field_simp
      rw [hcancel] at hlt2
      exact le_of_lt hlt2
    rcases hfind : niceStepBases.find? (fun base =>
        decide ((maxVal - minVal) /
          (base * (10 : ℚ) ^ Int.log 10 ((maxVal - minVal) / (maxTicks : ℚ))) ≤
            (maxTicks : ℚ))) with _ | base
    · exfalso
      have := List.find?_eq_none.mp hfind 10 (by norm_num [niceStepBases])
      simp at this
      exact absurd hpred10 (not_le.mpr this)
    · have hmem := List.mem_of_find?_eq_some hfind
      have hsat := List.find?_some hfind
      simp only [decide_eq_true_eq] at hsat
      have hstep : chooseNiceStep minVal maxVal maxTicks =
          base * (10 : ℚ) ^ Int.log 10 ((maxVal - minVal) / (maxTicks : ℚ)) := by
        rw [chooseNiceStep_eq_find minVal maxVal maxTicks hrn, hfind]
      refine ⟨base, hmem, hstep, ?_, ?_, ?_⟩
      · rw [hstep]; exact hsat
      · rw [hstep]; exact Int.ceil_le.mpr hsat
      · intro b hb hba
        have hasc : niceStepBases.Pairwise (fun u v => u < v) := by
          norm_num [niceStepBases]
        have hfalse := find_first_false_of_ascending niceStepBases hasc base hfind b hb hba
        simp only [decide_eq_false_iff_not, not_le] at hfalse
        exact hfalse
  · have hfloor : (⌊(97 / 7 : ℚ)⌋₊ : ℕ) = 13 := by
      rw [Nat.floor_eq_iff (by norm_num)]
      norm_num
    have hlog : Int.log 10 ((97 : ℚ) / 7) = 1 := by
      rw [Int.log_of_one_le_right _ (by norm_num), hfloor]
      exact_mod_cast Nat.log_eq_of_pow_le_of_lt_pow (by norm_num) (by norm_num)
    have h7 : ((7 : ℤ) : ℚ) = 7 := by norm_num
    rw [chooseNiceStep_eq_find 0 97 7 (by norm_num)]
    norm_num [h7, hlog, niceStepBases, List.find?]
  · intro minVal maxVal maxTicks h
    simp [chooseNiceStep, h]

/-- Witness for C4 at the concrete input (0, 97, 7). -/
theorem chooseNiceStep_spec_witness :
    ∃ base ∈ niceStepBases,
      chooseNiceStep 0 97 7 =
        base * (10 : ℚ) ^ Int.log 10 ((97 - 0) / ((7 : ℤ) : ℚ)) ∧
      (97 - 0 : ℚ) / chooseNiceStep 0 97 7 ≤ ((7 : ℤ) : ℚ) ∧
      ⌈(97 - 0 : ℚ) / chooseNiceStep 0 97 7⌉ ≤ (7 : ℤ) ∧
      ∀ b ∈ niceStepBases, b < base →
        (((7 : ℤ) : ℚ)) <
          (97 - 0 : ℚ) / (b * (10 : ℚ) ^ Int.log 10 ((97 - 0) / ((7 : ℤ) : ℚ))) :=
  chooseNiceStep_spec.1 0 97 7 (by norm_num) (by norm_num)

/-- Generic fact: filterMap emits the surviving elements in input order,
i.e. it is the in-order map over the kept elements. -/
theorem filterMap_eq_ordered_map {α β : Type} (g : α → Option β) (d : β) :
    ∀ l : List α, l.filterMap g = (l.filter (fun a => (g a).isSome)).map
      (fun a => (g a).getD d) := by
  intro l
  induction l with
  | nil => rfl
  | cons a as ih =>
    cases hga : g a with
    | none => simp [List.filterMap_cons, List.filter_cons, hga, ih]
    | some b => simp [List.filterMap_cons, List.filter_cons, hga, ih]

/-- C1 counterexample: a two-row spectra file whose x column is descending
survives parsing unsorted — the 2-column parse step does NOT sort. -/
theorem spectraParse_not_sorted_counterexample :
    ¬ (((spectraParseRows [[1, 0], [1 / 2, 0]]).map (fun p => p.1)).Pairwise
      (fun a b => a ≤ b)) := by
  norm_num [spectraParseRows, spectraRow, List.filterMap_cons, thzConv, noiseFloor]

/-- C1 amended: the 3-column LIV parse returns its x column sorted
ascending (adjacent x values nondecreasing); the 2-column spectra parse
instead returns the surviving converted rows in file order, unsorted. -/
theorem parse_sort_spec :
    (∀ rows : List (List ℚ),
      ((livParseRows rows).map (fun p => p.1)).Pairwise (fun a b => a ≤ b)) ∧
    (∀ rows : List (List ℚ),
      spectraParseRows rows = (rows.filter (fun f => (spectraRow f).isSome)).map
        (fun f => (spectraRow f).getD (0, 0))) := by
  constructor
  · intro rows
    have hs := @List.sorted_mergeSort (ℚ × ℚ × ℚ)
      (fun p q => decide (p.1 ≤ q.1))
      (fun a b c hab hbc => by
        simp only [decide_eq_true_eq] at *
        exact le_trans hab hbc)
      (fun a b => by
        simp only [Bool.or_eq_true, decide_eq_true_eq]
        exact le_total a.1 b.1)
      (rows.filterMap livRow)
    rw [List.pairwise_map]
    simpa [livParseRows] using hs
  · intro rows
    exact filterMap_eq_ordered_map spectraRow (0, 0) rows

/-- Generic fact: pre-dropping elements the row function rejects anyway
does not change a filterMap. -/
theorem filterMap_filter_irrelevant {α β : Type} (g : α → Option β) (keep : α → Bool)
    (h : ∀ a, keep a = false → g a = none) :
    ∀ l : List α, (l.filter keep).filterMap g = l.filterMap g := by
  intro l
  induction l with
  | nil => rfl
  | cons a as ih =>
    rw [List.filter_cons]
    cases hk : keep a with
    | false => simp [List.filterMap_cons, h a hk, ih]
    | true => simp [List.filterMap_cons, ih]

/-- Rows whose first column is at or below the noise floor are rejected by
the LIV row parser. -/
theorem livRow_low_none (f : List ℚ) (h : f.headD 0 ≤ noiseFloor) : livRow f = none := by
  match f with
  | [] => rfl
  | [_] => rfl
  | [_, _] => rfl
  | [a, b, c] =>
    simp only [List.headD_cons] at h
    simp [livRow, h]
  | _ :: _ :: _ :: _ :: _ => rfl

/-- Rows whose first column is at or below the noise floor are rejected by
the spectra row parser: the conversion factor is below 1, so the converted
value stays at or below the floor. -/
theorem spectraRow_low_none (f : List ℚ) (h : f.headD 0 ≤ noiseFloor) :
    spectraRow f = none := by
  match f with
  | [] => rfl
  | [a] => rfl
  | [a, b] =>
    simp only [List.headD_cons] at h
    have hc : a * thzConv ≤ noiseFloor := by
      rw [noiseFloor] at h ⊢
      rw [thzConv]
      nlinarith
    simp [spectraRow, hc]
  | _ :: _ :: _ :: _ => rfl

/-- C8: a row whose first column is ≤ 0.005 never appears in the parsed
trace, for both column counts: every parsed point sits above the floor,
and removing all such rows up front leaves both parses unchanged (for the
2-column path the floor test happens after the ×0.0299792458 conversion,
which only lowers the value further). -/
theorem noise_filter_spec :
    (∀ rows : List (List ℚ), ∀ r ∈ livParseRows rows, noiseFloor < r.1) ∧
    (∀ rows : List (List ℚ),
      livParseRows (rows.filter (fun f => noiseFloor < f.headD 0)) = livParseRows rows) ∧
    (∀ rows : List (List ℚ), ∀ q ∈ spectraParseRows rows, noiseFloor < q.1) ∧
    (∀ rows : List (List ℚ),
      spectraParseRows (rows.filter (fun f => noiseFloor < f.headD 0)) =
        spectraParseRows rows) := by
  refine ⟨?_, ?_, ?_, ?_⟩
  · intro rows r hr
    rw [livParseRows, List.mem_mergeSort, List.mem_filterMap] at hr
    obtain ⟨f, _, hf⟩ := hr
    match f with
    | [a, b, c] =>
      by_cases hle : a ≤ noiseFloor
      · simp [livRow, hle] at hf
      · simp only [livRow, if_neg hle] at hf
        injection hf with hf
        subst hf
        exact not_le.mp hle
  · intro rows
    rw [livParseRows, livParseRows,
      filterMap_filter_irrelevant livRow _
        (fun f hk => livRow_low_none f (by simpa using hk)) rows]
  · intro rows q hq
    rw [spectraParseRows, List.mem_filterMap] at hq
    obtain ⟨f, _, hf⟩ := hq
    match f with
    | [a, b] =>
      by_cases hle : a * thzConv ≤ noiseFloor
      · simp [spectraRow, hle] at hf
      · simp only [spectraRow, if_neg hle] at hf
        injection hf with hf
        subst hf
        exact not_le.mp hle
  · intro rows
    rw [spectraParseRows, spectraParseRows,
      filterMap_filter_irrelevant spectraRow _
        (fun f hk => spectraRow_low_none f (by simpa using hk)) rows]

/-- Witness for C8: concrete rows through both parsers. -/
theorem noise_filter_spec_witness :
    noiseFloor < (((1 : ℚ), (2 : ℚ), (3 : ℚ)) : ℚ × ℚ × ℚ).1 ∧
    noiseFloor < ((1 * thzConv, (4 : ℚ)) : ℚ × ℚ).1 :=
  ⟨noise_filter_spec.1 [[1, 2, 3]] (1, 2, 3)
      (by simp [livParseRows, livRow, noiseFloor, List.filterMap_cons]; norm_num),
    noise_filter_spec.2.2.1 [[1, 4]] (1 * thzConv, 4)
      (by simp [spectraParseRows, spectraRow, thzConv, noiseFloor,
        List.filterMap_cons]; norm_num)⟩

/-- C2 counterexample: two traces whose labels parse to the same double
(two files both labelled "1") in a given input order.  The swapped order
also satisfies everything std::sort guarantees (the construction uses
std::sort, not std::stable_sort), so tie-breaking by original input order
is NOT ensured by the code. -/
theorem traceSort_not_stable_counterexample :
    SortedByLabelPerm LivTrace.label
      [⟨1, [], [], [10]⟩, ⟨1, [], [], [20]⟩]
      [⟨1, [], [], [20]⟩, ⟨1, [], [], [10]⟩] ∧
    ([⟨1, [], [], [20]⟩, ⟨1, [], [], [10]⟩] : List LivTrace) ≠
      [⟨1, [], [], [10]⟩, ⟨1, [], [], [20]⟩] := by
  refine ⟨⟨List.Perm.swap _ _ _, ?_⟩, by decide⟩
  simp [List.pairwise_cons]

/-- C2 amended: the constructed trace order is ascending in the parsed
label and is a permutation of the input traces (with each label still
attached to its own data); the relative order of equal-label traces is
unspecified. -/
theorem traceSort_spec (inp out : List LivTrace)
    (h : SortedByLabelPerm LivTrace.label inp out) :
    (out.map LivTrace.label).Pairwise (fun a b => a ≤ b) ∧
    out.Perm inp ∧
    (out.map LivTrace.label).Perm (inp.map LivTrace.label) ∧
    out.length = inp.length := by
  obtain ⟨hperm, hsorted⟩ := h
  refine ⟨?_, hperm.symm, ?_, ?_⟩
  · rw [List.pairwise_map]
    exact hsorted
  · exact (hperm.map LivTrace.label).symm
  · exact hperm.length_eq.symm

/-- Witness for C2's amended theorem at a concrete two-trace input. -/
theorem traceSort_spec_witness :
    (([⟨1, [], [], [5]⟩, ⟨2, [], [], [6]⟩] : List LivTrace).map LivTrace.label).Pairwise
      (fun a b => a ≤ b) ∧
    ([⟨1, [], [], [5]⟩, ⟨2, [], [], [6]⟩] : List LivTrace).Perm
      [⟨2, [], [], [6]⟩, ⟨1, [], [], [5]⟩] ∧
    (([⟨1, [], [], [5]⟩, ⟨2, [], [], [6]⟩] : List LivTrace).map LivTrace.label).Perm
      (([⟨2, [], [], [6]⟩, ⟨1, [], [], [5]⟩] : List LivTrace).map LivTrace.label) ∧
    ([⟨1, [], [], [5]⟩, ⟨2, [], [], [6]⟩] : List LivTrace).length =
      ([⟨2, [], [], [6]⟩, ⟨1, [], [], [5]⟩] : List LivTrace).length :=
  traceSort_spec [⟨2, [], [], [6]⟩, ⟨1, [], [], [5]⟩] [⟨1, [], [], [5]⟩, ⟨2, [], [], [6]⟩]
    ⟨List.Perm.swap _ _ _, by simp [List.pairwise_cons]⟩

/-- Characterization of the threshold-index scan: findIdx? returns the
first index whose element satisfies the predicate. -/
theorem findIdx?_first {p : ℚ → Bool} :
    ∀ (L : List ℚ) (j : ℕ), L.findIdx? p = some j →
      p (L.getD j 0) = true ∧ ∀ k, k < j → p (L.getD k 0) = false := by
  intro L
  induction L with
  | nil => intro j h; simp at h
  | cons x xs ih =>
    intro j h
    rw [List.findIdx?_cons] at h
    by_cases hx : p x = true
    · rw [if_pos hx] at h
      injection h with h
      subst h
      exact ⟨hx, fun k hk => absurd hk (Nat.not_lt_zero k)⟩
    · have hx2 : p x = false := by simpa using hx
      rw [if_neg (by simp [hx2]), List.findIdx?_start_succ] at h
      cases hxs : xs.findIdx? p with
      | none => rw [hxs] at h; simp at h
      | some j0 =>
        rw [hxs] at h
        simp only [Option.map_some'] at h
        injection h with h
        subst h
        obtain ⟨h1, h2⟩ := ih j0 hxs
        refine ⟨by simpa using h1, ?_⟩
        intro k hk
        cases k with
        | zero => exact hx2
        | succ k0 => simpa using h2 k0 (by omega)

/-- Folding updMin from a concrete start point is plain min folding. -/
theorem foldl_updMin_some (l : List ℚ) :
    ∀ m : ℚ, l.foldl updMin (some m) = some (l.foldl min m) := by
  induction l with
  | nil => intro m; rfl
  | cons h t ih => intro m; simp [updMin, ih]

/-- Folding updMin from the sentinel computes the minimum of the list. -/
theorem foldl_updMin_none (l : List ℚ) :
    l.foldl updMin none = match l with
      | [] => none
      | h :: t => some (listMin (h :: t)) := by
  cases l with
  | nil => rfl
  | cons h t => simp [updMin, listMin, foldl_updMin_some]

/-- Folding updMax from a concrete start point is plain max folding. -/
theorem foldl_updMax_some (l : List ℚ) :
    ∀ m : ℚ, l.foldl updMax (some m) = some (l.foldl max m) := by
  induction l with
  | nil => intro m; rfl
  | cons h t ih => intro m; simp [updMax, ih]

/-- Folding updMax from the sentinel computes the maximum of the list. -/
theorem foldl_updMax_none (l : List ℚ) :
    l.foldl updMax none = match l with
      | [] => none
      | h :: t => some (listMax (h :: t)) := by
  cases l with
  | nil => rfl
  | cons h t => simp [updMax, listMax, foldl_updMax_some]

/-- The conditional pair fold of IthDataProcessor::process splits into two
sentinel folds over the qualifying currents. -/
theorem foldl_pair_minmax (thr : ℚ) :
    ∀ (ps : List (ℚ × ℚ)) (ab : Option ℚ × Option ℚ),
      ps.foldl
        (fun (acc : Option ℚ × Option ℚ) p =>
          if thr ≤ p.2 then (updMin acc.1 p.1, updMax acc.2 p.1) else acc) ab =
      (((ps.filter (fun p => thr ≤ p.2)).map Prod.fst).foldl updMin ab.1,
        ((ps.filter (fun p => thr ≤ p.2)).map Prod.fst).foldl updMax ab.2) := by
  intro ps
  induction ps with
  | nil => intro ab; rfl
  | cons p ps ih =>
    intro ab
    by_cases hp : thr ≤ p.2
    · simp only [List.foldl_cons, if_pos hp, List.filter_cons]
      rw [if_pos (show decide (thr ≤ p.2) = true by simpa using hp)]
      simp only [List.map_cons, List.foldl_cons]
      exact ih _
    · simp only [List.foldl_cons, if_neg hp, List.filter_cons]
      rw [if_neg (show ¬ decide (thr ≤ p.2) = true by simpa using hp)]
      exact ih ab

/-- C5: threshold analysis emits one (T, Ith, DR) entry per surviving trace
in the set's order: a trace with mismatched I/L lengths or no L value at
or above the threshold is skipped; Ith is the current at the FIRST index
where L reaches the threshold (characterized below), and DR is
(max − min)·1000 over exactly the currents whose L qualifies. -/
theorem ithProcess_spec (threshold : ℚ) :
    (∀ traces : List IthTrace,
      ithProcess threshold traces = traces.filterMap (fun t =>
        if t.I.length = t.L.length then
          match t.L.findIdx? (fun l => threshold ≤ l) with
          | some j =>
            some (t.label, t.I.getD j 0,
              (listMax (((t.I.zip t.L).filter (fun p => threshold ≤ p.2)).map Prod.fst) -
                listMin (((t.I.zip t.L).filter (fun p => threshold ≤ p.2)).map Prod.fst))
                * 1000)
          | none => none
        else none)) ∧
    (∀ L : List ℚ, ∀ j : ℕ, L.findIdx? (fun l => threshold ≤ l) = some j →
      threshold ≤ L.getD j 0 ∧ ∀ k, k < j → L.getD k 0 < threshold) := by
  constructor
  · intro traces
    induction traces with
    | nil => rfl
    | cons t rest ih =>
      rw [List.filterMap_cons]
      by_cases hlen : t.I.length ≠ t.L.length
      · rw [ithProcess, if_pos hlen, if_neg (by simpa using hlen)]
        exact ih
      · have hlen2 : t.I.length = t.L.length := not_not.mp hlen
        rw [ithProcess, if_neg hlen, if_pos hlen2]
        cases hidx : t.L.findIdx? (fun l => threshold ≤ l) with
        | none => simp only [hidx]; exact ih
        | some j =>
          simp only [hidx]
          rw [foldl_pair_minmax threshold (t.I.zip t.L) (none, none)]
          cases hq : ((t.I.zip t.L).filter (fun p => threshold ≤ p.2)).map Prod.fst with
          | nil =>
            simp only [hq, List.foldl_nil, foldl_updMin_none, foldl_updMax_none]
            rw [ih]
            simp [listMax, listMin]
          | cons q qs =>
            simp only [hq, foldl_updMin_none, foldl_updMax_none]
            rw [ih]
            simp [listMax, listMin]
  · intro L j h
    have hchar := findIdx?_first L j h
    refine ⟨by simpa using hchar.1, ?_⟩
    intro k hk
    have := hchar.2 k hk
    simpa using this

/-- Witness for C5's first-crossing characterization on a concrete trace. -/
theorem ithProcess_spec_witness :
    (3 : ℚ) ≤ ([1, 4, 5] : List ℚ).getD 1 0 ∧
      ∀ k, k < 1 → ([1, 4, 5] : List ℚ).getD k 0 < (3 : ℚ) :=
  (ithProcess_spec 3).2 [1, 4, 5] 1 rfl

/-- Maximum of a list as an Option (none on empty), the spec-side view of
a lowest()-sentinel max fold. -/
def maxO (l : List ℚ) : Option ℚ :=
  match l with
  | [] => none
  | h :: t => some (listMax (h :: t))

/-- Merge of two optional maxima. -/
def combineMax (a b : Option ℚ) : Option ℚ :=
  match a, b with
  | none, b => b
  | a, none => a
  | some x, some y => some (max x y)

/-- Hoisting an upper seed out of a max fold. -/
theorem foldl_max_hoist (t : List ℚ) :
    ∀ m h : ℚ, t.foldl max (max m h) = max m (t.foldl max h) := by
  induction t with
  | nil => intro m h; rfl
  | cons a t ih =>
    intro m h
    rw [List.foldl_cons, List.foldl_cons, max_assoc, ih]

/-- maxO splits across append as combineMax. -/
theorem maxO_append (l1 l2 : List ℚ) :
    maxO (l1 ++ l2) = combineMax (maxO l1) (maxO l2) := by
  cases l1 with
  | nil => cases l2 <;> rfl
  | cons h t =>
    cases l2 with
    | nil => simp [maxO, combineMax]
    | cons h2 t2 =>
      simp only [maxO, combineMax, List.cons_append, listMax, List.foldl_append]
      rw [List.foldl_cons, foldl_max_hoist]

/-- combineMax is associative. -/
theorem combineMax_assoc (a b c : Option ℚ) :
    combineMax (combineMax a b) c = combineMax a (combineMax b c) := by
  cases a <;> cases b <;> cases c <;> simp [combineMax, max_assoc]

/-- One step of the preNormMaxY2 fold is a combineMax with the trace's own
maximum. -/
theorem livStep_eq_combineMax (acc : Option ℚ) (t : LivTrace) :
    (if t.y2 = [] then acc
      else
        match acc with
        | none => some (listMax t.y2)
        | some m => some (max m (listMax t.y2))) = combineMax acc (maxO t.y2) := by
  cases hy : t.y2 with
  | nil => cases acc <;> simp [maxO, combineMax]
  | cons h tl => cases acc <;> simp [maxO, combineMax, hy]

/-- The preNormMaxY2 fold computes the maximum over the concatenation of
all y2 vectors — one global value, not a per-trace one. -/
theorem livGlobalMaxY2_eq_maxO_join :
    ∀ (ts : List LivTrace) (acc : Option ℚ),
      ts.foldl
        (fun acc t =>
          if t.y2 = [] then acc
          else
            match acc with
            | none => some (listMax t.y2)
            | some m => some (max m (listMax t.y2)))
        acc = combineMax acc (maxO ((ts.map LivTrace.y2).flatten)) := by
  intro ts
  induction ts with
  | nil => intro acc; cases acc <;> rfl
  | cons t rest ih =>
    intro acc
    rw [List.foldl_cons, livStep_eq_combineMax, ih, List.map_cons,
      List.flatten_cons, maxO_append, combineMax_assoc]

/-- C7: after construction every optical-output value is the raw parsed
value divided by the single global pre-normalization maximum of y2 across
all traces (1.0 if that maximum is exactly 0), times scaleFactor, whose
default is 100.0; the reference is one global value for the whole set. -/
theorem livNormalize_spec (ts : List LivTrace) (sf : ℚ) :
    livNormalizeData ts sf = ts.map (fun t =>
      { t with y2 := t.y2.map (fun v => v / livReferenceNorm ts * sf) }) ∧
    livGlobalMaxY2 ts = maxO ((ts.map LivTrace.y2).flatten) ∧
    (livGlobalMaxY2 ts = some 0 → livReferenceNorm ts = 1) ∧
    (∀ m : ℚ, livGlobalMaxY2 ts = some m → m ≠ 0 → livReferenceNorm ts = m) ∧
    livDefaultScaleFactor = 100 := by
  refine ⟨rfl, ?_, ?_, ?_, rfl⟩
  · rw [livGlobalMaxY2, livGlobalMaxY2_eq_maxO_join]
    cases maxO ((ts.map LivTrace.y2).flatten) <;> rfl
  · intro h
    rw [livReferenceNorm, h]
    rfl
  · intro m h hm
    rw [livReferenceNorm, h]
    simp [hm]

/-- Witness for C7 at a concrete one-trace set with maximum 2. -/
theorem livNormalize_spec_witness :
    livReferenceNorm [⟨1, [], [], [2]⟩] = 2 :=
  (livNormalize_spec [⟨1, [], [], [2]⟩] 100).2.2.2.1 2 rfl (by norm_num)

/-- C10 counterexample: with one surviving trace and numPoints = 0 the
claimed precondition numPoints ≥ 2 is violated, yet neither wrapper hits
an error branch — linspace's division only fails at numPoints = 1, and a
numPoints of 0 simply produces an empty evaluation grid. -/
theorem applyFit_guard_counterexample :
    (applyPolynomialFitE [0] [0] 0 1).isOk = true ∧
    (applyExponentialFitE [0] [0] 0).isOk = true ∧
    ¬ ((2 : ℤ) ≤ 0) := by
  refine ⟨rfl, ?_, by norm_num⟩
  have h : applyExponentialFitE [0] [0] 0 = Except.ok ([], []) := by
    rw [applyExponentialFitE]
    norm_num [linspaceE, exponentialFit]
  rw [h]
  rfl

/-- C10 amended: the out-of-bounds first()/last() reads and linspace's
division by numPoints−1 are unreachable exactly when the stored T vector
is nonempty and numPoints ≠ 1 (numPoints ≥ 2 is sufficient but not
necessary: numPoints ≤ 0 also reaches no error branch). -/
theorem applyFit_error_iff (T Ith : List ℚ) (numPoints : ℤ) (order : ℕ) :
    ((applyExponentialFitE T Ith numPoints).isOk = true ↔ (T ≠ [] ∧ numPoints ≠ 1)) ∧
    ((applyPolynomialFitE T Ith numPoints order).isOk = true ↔ (T ≠ [] ∧ numPoints ≠ 1)) := by
  have hlin : ∀ s e : ℚ, numPoints ≠ 1 →
      ∃ l, linspaceE s e numPoints = Except.ok l := by
    intro s e hnp
    rw [linspaceE, if_neg (by omega)]
    exact ⟨_, rfl⟩
  constructor
  · cases T with
    | nil => simp [applyExponentialFitE, Except.isOk, Except.toBool]
    | cons t0 ts =>
      by_cases hnp : numPoints = 1
      · subst hnp
        rw [applyExponentialFitE]
        simp [linspaceE, Except.isOk, Except.toBool]
      · obtain ⟨l, hl⟩ := hlin t0 ((t0 :: ts).getLastD 0) hnp
        rw [applyExponentialFitE, hl]
        cases hfit : exponentialFit (t0 :: ts) Ith with
        | none => simp [Except.isOk, Except.toBool, hnp]
        | some v =>
          obtain ⟨A, B, C0⟩ := v
          simp [Except.isOk, Except.toBool, hnp]
  · cases T with
    | nil => simp [applyPolynomialFitE, Except.isOk, Except.toBool]
    | cons t0 ts =>
      by_cases hnp : numPoints = 1
      · subst hnp
        rw [applyPolynomialFitE]
        simp [linspaceE, Except.isOk, Except.toBool]
      · obtain ⟨l, hl⟩ := hlin t0 ((t0 :: ts).getLastD 0) hnp
        rw [applyPolynomialFitE, hl]
        cases hfit : polynomialFit (t0 :: ts) Ith order with
        | none => simp [Except.isOk, Except.toBool, hnp]
        | some coefficients => simp [Except.isOk, Except.toBool, hnp]

/-- Witness for C10's amended equivalence at a concrete input. -/
theorem applyFit_error_iff_witness :
    (applyExponentialFitE [0] [0] 5).isOk = true :=
  (applyFit_error_iff [0] [0] 5 1).1.mpr ⟨by simp, by norm_num⟩


/-- Reading a list back through getD over its index range is the list
itself (shifted by a constant here). -/
theorem range_getD_sub (y : List ℚ) (c : ℚ) :
    (List.range y.length).map (fun i => y.getD i 0 - c) = y.map (fun v => v - c) := by
  induction y with
  | nil => rfl
  | cons a t ih =>
    rw [List.length_cons, List.range_succ_eq_map, List.map_cons, List.map_map,
      List.map_cons]
    refine congrArg (fun l => (a - c) :: l) ?_
    rw [List.map_congr_left (fun i _ => by
      show (a :: t).getD (i + 1) 0 - c = t.getD i 0 - c
      rw [List.getD_cons_succ])]
    exact ih

/-- Log of the 0.99-adjusted values, the series the source regresses on. -/
noncomputable def logAdjusted (y : List ℚ) : List ℝ :=
  y.map (fun v => Real.log ((v - 99 / 100 * listMin y : ℚ) : ℝ))

/-- C6: exponentialFit reports failure exactly when n < 2, some adjusted
value y[i] − 0.99·min(y) is ≤ 0, or the least-squares denominator
n·Σx² − (Σx)² is exactly 0; otherwise it succeeds with C0 = min(y), B the
closed-form slope of log(y − 0.99 min y) against x, and A = exp of the
closed-form intercept — well-defined real numbers, never NaN. -/
theorem exponentialFit_spec (x y : List ℚ) (h : x.length = y.length) :
    (exponentialFit x y = none ↔
      x.length < 2 ∨ (∃ v ∈ y, v - 99 / 100 * listMin y ≤ 0) ∨
        (x.length : ℚ) * (x.map (fun v => v * v)).sum - x.sum * x.sum = 0) ∧
    (∀ A B C0 : ℝ, exponentialFit x y = some (A, B, C0) →
      C0 = (listMin y : ℝ) ∧
      B = ((x.length : ℝ) * ((x.zip (logAdjusted y)).map (fun p => (p.1 : ℝ) * p.2)).sum -
            (x.sum : ℝ) * (logAdjusted y).sum) /
          (((x.length : ℚ) * (x.map (fun v => v * v)).sum - x.sum * x.sum : ℚ) : ℝ) ∧
      A = Real.exp (((logAdjusted y).sum - B * (x.sum : ℝ)) / (x.length : ℝ))) := by
  have hyadj : (List.range x.length).map (fun i => y.getD i 0 - 99 / 100 * listMin y) =
      y.map (fun v => v - 99 / 100 * listMin y) := by
    rw [h]
    exact range_getD_sub y _
  have hposiff : (∀ v ∈ (List.range x.length).map
      (fun i => y.getD i 0 - 99 / 100 * listMin y), 0 < v) ↔
      ¬ ∃ v ∈ y, v - 99 / 100 * listMin y ≤ 0 := by
    rw [hyadj]
    simp only [List.mem_map]
    push_neg
    constructor
    · intro hp v hv
      exact hp _ ⟨v, hv, rfl⟩
    · rintro hp w ⟨v, hv, rfl⟩
      exact hp v hv
  have hlogmap : (y.map (fun v => v - 99 / 100 * listMin y)).map
      (fun v => Real.log ((v : ℚ) : ℝ)) = logAdjusted y := by
    rw [List.map_map]
    rfl
  constructor
  · simp only [exponentialFit]
    by_cases h2 : x.length < 2
    · rw [if_pos h2]
      simp [h2]
    · rw [if_neg h2]
      by_cases hex : ∃ v ∈ y, v - 99 / 100 * listMin y ≤ 0
      · have hnpos : ¬ ∀ v ∈ (List.range x.length).map
            (fun i => y.getD i 0 - 99 / 100 * listMin y), 0 < v :=
          fun hall => (hposiff.mp hall) hex
        rw [if_pos hnpos]
        exact iff_of_true rfl (Or.inr (Or.inl hex))
      · have hpos := hposiff.mpr hex
        rw [if_neg (not_not.mpr hpos)]
        by_cases hden : (x.length : ℚ) * (x.map (fun v => v * v)).sum - x.sum * x.sum = 0
        · rw [if_pos hden]
          exact iff_of_true rfl (Or.inr (Or.inr hden))
        · rw [if_neg hden]
          exact iff_of_false (by simp) (by
            rintro (hh | hh | hh)
            exacts [h2 hh, hex hh, hden hh])
  · intro A B C0 hsome
    rw [exponentialFit] at hsome
    by_cases h2 : x.length < 2
    · rw [if_pos h2] at hsome
      simp at hsome
    · rw [if_neg h2] at hsome
      by_cases hpos : ∀ v ∈ (List.range x.length).map
          (fun i => y.getD i 0 - 99 / 100 * listMin y), 0 < v
      · rw [if_neg (not_not.mpr hpos)] at hsome
        by_cases hden : (x.length : ℚ) * (x.map (fun v => v * v)).sum - x.sum * x.sum = 0
        · rw [if_pos hden] at hsome
          simp at hsome
        · rw [if_neg hden] at hsome
          rw [hyadj] at hsome
          simp only [hlogmap, Option.some.injEq, Prod.mk.injEq] at hsome
          obtain ⟨hA, hB, hC⟩ := hsome
          exact ⟨hC.symm, hB.symm, by rw [← hA, ← hB]⟩
      · rw [if_pos hpos] at hsome
        simp at hsome

/-- Witness for C6: a one-point input fails with n < 2. -/
theorem exponentialFit_spec_witness : exponentialFit [(0 : ℚ)] [(1 : ℚ)] = none :=
  (exponentialFit_spec [0] [1] rfl).1.mpr (Or.inl (by norm_num))

/-- Spec-side lower edge of the peak window, per the amended claim: the
FIRST trace's center mode and every side mode with amplitude > 0.15, each
extended down by its own FWHM. -/
def specWindowLo (st : SpectraRangeState) : ℚ :=
  ((st.sideModeData.flatten.filter (fun p => 3 / 20 < p.amplitude)).map
      (fun p => p.frequency - p.fwhm)).foldl min
    ((st.centerModeData.headD default).frequency -
      (st.centerModeData.headD default).fwhm)

/-- Spec-side upper edge of the peak window (first center mode and
qualifying side modes, extended up by their own FWHM). -/
def specWindowHi (st : SpectraRangeState) : ℚ :=
  ((st.sideModeData.flatten.filter (fun p => 3 / 20 < p.amplitude)).map
      (fun p => p.frequency + p.fwhm)).foldl max
    ((st.centerModeData.headD default).frequency +
      (st.centerModeData.headD default).fwhm)

/-- Spec-side lowest center-mode frequency across all traces. -/
def specLowestF0 (st : SpectraRangeState) : ℚ :=
  listMin (st.centerModeData.map Peak.frequency)

/-- Spec-side tick step of the 6-tick snap: margin-widened window width
over 6. -/
def specStep (st : SpectraRangeState) : ℚ :=
  (specWindowHi st + 1 / 50 - (specWindowLo st - 1 / 50)) / 6

/-- Spec-side snapped window minimum: shift so the lowest center-mode
frequency lands on the tick grid (round half away from zero). -/
def specXmin (st : SpectraRangeState) : ℚ :=
  specLowestF0 st -
    (cppRound ((specLowestF0 st - (specWindowLo st - 1 / 50)) / specStep st) : ℚ) *
      specStep st

/-- Spec-side snapped window maximum. -/
def specXmax (st : SpectraRangeState) : ℚ :=
  specXmin st + 6 * specStep st

/-- The conditional window fold over one side-mode list splits into a min
fold and a max fold over the qualifying peaks. -/
theorem sideFold_eq (ps : List Peak) :
    ∀ ab : ℚ × ℚ,
      ps.foldl
        (fun mm p =>
          if 3 / 20 < p.amplitude then
            (min mm.1 (p.frequency - p.fwhm), max mm.2 (p.frequency + p.fwhm))
          else mm) ab =
      (((ps.filter (fun p => 3 / 20 < p.amplitude)).map
          (fun p => p.frequency - p.fwhm)).foldl min ab.1,
        ((ps.filter (fun p => 3 / 20 < p.amplitude)).map
          (fun p => p.frequency + p.fwhm)).foldl max ab.2) := by
  induction ps with
  | nil => intro ab; rfl
  | cons p ps ih =>
    intro ab
    by_cases hp : 3 / 20 < p.amplitude
    · simp only [List.foldl_cons, if_pos hp, List.filter_cons]
      rw [if_pos (show decide (3 / 20 < p.amplitude) = true by simpa using hp)]
      simp only [List.map_cons, List.foldl_cons]
      exact ih _
    · simp only [List.foldl_cons, if_neg hp, List.filter_cons]
      rw [if_neg (show ¬ decide (3 / 20 < p.amplitude) = true by simpa using hp)]
      exact ih ab

/-- The nested peakWindow fold equals the spec-side min/max over the
flattened qualifying side modes. -/
theorem peakWindow_eq (st : SpectraRangeState) :
    peakWindow st = (specWindowLo st, specWindowHi st) := by
  rw [peakWindow, specWindowLo, specWindowHi]
  generalize (st.centerModeData.headD default).frequency -
    (st.centerModeData.headD default).fwhm = a
  generalize (st.centerModeData.headD default).frequency +
    (st.centerModeData.headD default).fwhm = b
  show st.sideModeData.foldl _ (a, b) = _
  induction st.sideModeData generalizing a b with
  | nil => rfl
  | cons ps rest ih =>
    rw [List.foldl_cons, sideFold_eq, List.flatten_cons, List.filter_append,
      List.map_append, List.map_append, List.foldl_append, List.foldl_append]
    exact ih _ _

/-- The lowestF0 scan is the minimum of the center-mode frequencies. -/
theorem lowestF0_eq (st : SpectraRangeState) : lowestF0 st = specLowestF0 st := by
  have hfun : (fun (acc : ℚ) (c : Peak) =>
      if c.frequency < acc then c.frequency else acc) =
      fun acc c => min acc c.frequency := by
    funext acc c
    by_cases hcc : c.frequency < acc
    · rw [if_pos hcc, min_eq_right (le_of_lt hcc)]
    · rw [if_neg hcc, min_eq_left (le_of_not_lt hcc)]
  cases hc : st.centerModeData with
  | nil =>
    simp only [lowestF0, specLowestF0, hc, listMin, List.map_nil, List.foldl_nil,
      List.headD_nil]
    rfl
  | cons c0 rest =>
    rw [lowestF0, specLowestF0, hc, hfun, ← List.foldl_map, List.headD_cons,
      List.map_cons, listMin, List.foldl_cons, min_self]

/-- Window lower edge following the ORIGINAL claim's words — "every
trace's center mode and every side mode with amplitude > 0.15" — for
comparison against the code, which only seeds from the first trace's
center mode. -/
def claimedWindowLo (st : SpectraRangeState) : ℚ :=
  listMin ((st.centerModeData.map (fun c => c.frequency - c.fwhm)) ++
    ((st.sideModeData.flatten.filter (fun p => 3 / 20 < p.amplitude)).map
      (fun p => p.frequency - p.fwhm)))

/-- Window upper edge following the original claim's words (all center
modes included). -/
def claimedWindowHi (st : SpectraRangeState) : ℚ :=
  listMax ((st.centerModeData.map (fun c => c.frequency + c.fwhm)) ++
    ((st.sideModeData.flatten.filter (fun p => 3 / 20 < p.amplitude)).map
      (fun p => p.frequency + p.fwhm)))

/-- Tick step of the claim's 6-tick snap over the all-center-modes window. -/
def claimedStep (st : SpectraRangeState) : ℚ :=
  (claimedWindowHi st + 1 / 50 - (claimedWindowLo st - 1 / 50)) / 6

/-- Snapped minimum per the original claim's formula. -/
def claimedXmin (st : SpectraRangeState) : ℚ :=
  specLowestF0 st -
    (cppRound ((specLowestF0 st - (claimedWindowLo st - 1 / 50)) / claimedStep st) : ℚ) *
      claimedStep st

/-- Snapped maximum per the original claim's formula. -/
def claimedXmax (st : SpectraRangeState) : ℚ :=
  claimedXmin st + 6 * claimedStep st

/-- C3 counterexample: with two traces whose center modes sit at 3 and
5 THz (no side modes), the code's window is seeded from the FIRST center
mode only: getXmin/getXmax return 2.98/3.02, while the claim's
all-center-modes window would give 3/5.04 — the second trace's center
mode lies entirely outside the returned range. -/
theorem getRange_counterexample :
    getXmin ⟨0, 0, [⟨3, 1, 0, 0⟩, ⟨5, 1, 0, 0⟩], [[], []], [[1]], [[1]]⟩ = 149 / 50 ∧
    getXmax ⟨0, 0, [⟨3, 1, 0, 0⟩, ⟨5, 1, 0, 0⟩], [[], []], [[1]], [[1]]⟩ = 151 / 50 ∧
    claimedXmin ⟨0, 0, [⟨3, 1, 0, 0⟩, ⟨5, 1, 0, 0⟩], [[], []], [[1]], [[1]]⟩ = 3 ∧
    claimedXmax ⟨0, 0, [⟨3, 1, 0, 0⟩, ⟨5, 1, 0, 0⟩], [[], []], [[1]], [[1]]⟩ = 126 / 25 ∧
    (149 / 50 : ℚ) ≠ 3 ∧ (151 / 50 : ℚ) ≠ 126 / 25 := by
  refine ⟨?_, ?_, ?_, ?_, by norm_num, by norm_num⟩
  · norm_num [getXmin, peakWindow, lowestF0, adjustRange, cppRound]
    exact List.cons_ne_nil _ _
  · norm_num [getXmax, peakWindow, lowestF0, adjustRange, cppRound]
    exact List.cons_ne_nil _ _
  · norm_num [claimedXmin, claimedWindowLo, claimedWindowHi, claimedStep,
      specLowestF0, cppRound, listMin, listMax]
  · norm_num [claimedXmax, claimedXmin, claimedWindowLo, claimedWindowHi, claimedStep,
      specLowestF0, cppRound, listMin, listMax]

/-- C3 amended: a non-zero caller-supplied fmin/fmax is returned verbatim;
otherwise, for a processed set with at least one trace, getXmin/getXmax
return the 6-tick snap (round half away from zero) of the window spanning
the FIRST trace's center mode and every side mode with amplitude > 0.15,
each extended by its own FWHM and widened by the fixed 0.020 THz margin;
the lowest center-mode frequency across all traces lies on the tick grid. -/
theorem getRange_spec (st : SpectraRangeState) :
    (st.fmin ≠ 0 → getXmin st = st.fmin) ∧
    (st.fmax ≠ 0 → getXmax st = st.fmax) ∧
    (st.fmin = 0 → st.centerModeData ≠ [] → st.xList ≠ [] → st.y1List ≠ [] →
      getXmin st = specXmin st ∧
      ∃ k : ℤ, specLowestF0 st = getXmin st + (k : ℚ) * specStep st) ∧
    (st.fmax = 0 → st.centerModeData ≠ [] → st.xList ≠ [] → st.y1List ≠ [] →
      getXmax st = specXmax st) := by
  have h6 : ((6 : ℤ) : ℚ) = 6 := by norm_num
  refine ⟨?_, ?_, ?_, ?_⟩
  · intro h
    rw [getXmin, if_pos h]
  · intro h
    rw [getXmax, if_pos h]
  · intro hf hc hx hy
    have hguard : ¬ (st.centerModeData = [] ∨ st.xList = [] ∨ st.y1List = []) := by
      simp [hc, hx, hy]
    have hx1 : getXmin st = specXmin st := by
      rw [getXmin, if_neg (by simp [hf]), if_neg hguard]
      simp only [adjustRange, peakWindow_eq, lowestF0_eq, h6]
      rw [specXmin, specStep]
    refine ⟨hx1, ⟨cppRound ((specLowestF0 st - (specWindowLo st - 1 / 50)) / specStep st), ?_⟩⟩
    rw [hx1, specXmin]
    ring
  · intro hf hc hx hy
    have hguard : ¬ (st.centerModeData = [] ∨ st.xList = [] ∨ st.y1List = []) := by
      simp [hc, hx, hy]
    rw [getXmax, if_neg (by simp [hf]), if_neg hguard]
    simp only [adjustRange, peakWindow_eq, lowestF0_eq, h6]
    rw [specXmax, specXmin, specStep]

/-- Witness for C3's amended theorem at a concrete one-trace state. -/
theorem getRange_spec_witness :
    getXmin ⟨0, 0, [⟨3, 1, 0, 0⟩], [[]], [[1]], [[1]]⟩ =
      specXmin ⟨0, 0, [⟨3, 1, 0, 0⟩], [[]], [[1]], [[1]]⟩ ∧
    ∃ k : ℤ, specLowestF0 ⟨0, 0, [⟨3, 1, 0, 0⟩], [[]], [[1]], [[1]]⟩ =
      getXmin ⟨0, 0, [⟨3, 1, 0, 0⟩], [[]], [[1]], [[1]]⟩ +
        (k : ℚ) * specStep ⟨0, 0, [⟨3, 1, 0, 0⟩], [[]], [[1]], [[1]]⟩ :=
  (getRange_spec ⟨0, 0, [⟨3, 1, 0, 0⟩], [[]], [[1]], [[1]]⟩).2.2.1 rfl
    (by simp) (by simp) (by simp)

instance : Inhabited SpecTrace := ⟨⟨0, [], []⟩⟩

/-- Splitting a max fold one element in. -/
theorem listMax_cons (h a : ℚ) (t : List ℚ) :
    listMax (h :: a :: t) = max h (listMax (a :: t)) := by
  show (a :: t).foldl max h = _
  rw [List.foldl_cons]
  exact foldl_max_hoist t h a

/-- The maximum of a nonempty list is one of its elements. -/
theorem listMax_mem : ∀ (l : List ℚ), l ≠ [] → listMax l ∈ l
  | [], h => absurd rfl h
  | [h], _ => by simp [listMax]
  | h :: a :: t, _ => by
    rw [listMax_cons]
    rcases max_choice h (listMax (a :: t)) with hmc | hmc
    · rw [hmc]
      exact List.mem_cons_self _ _
    · rw [hmc]
      exact List.mem_cons_of_mem _ (listMax_mem (a :: t) (List.cons_ne_nil a t))

/-- Every element is at most the fold maximum. -/
theorem le_listMax : ∀ (l : List ℚ), ∀ v ∈ l, v ≤ listMax l
  | [], v, hv => absurd hv (List.not_mem_nil v)
  | [h], v, hv => by
    simp only [List.mem_singleton] at hv
    simp [hv, listMax]
  | h :: a :: t, v, hv => by
    rw [listMax_cons]
    rcases List.mem_cons.mp hv with rfl | hv2
    · exact le_max_left _ _
    · exact le_trans (le_listMax (a :: t) v hv2) (le_max_right _ _)

/-- Reversing a vector does not change its maximum. -/
theorem listMax_reverse (l : List ℚ) : listMax l.reverse = listMax l := by
  cases hl : l with
  | nil => rfl
  | cons h t =>
    have hne : (h :: t) ≠ [] := List.cons_ne_nil h t
    have hner : (h :: t).reverse ≠ [] := by simp
    apply le_antisymm
    · exact le_listMax _ _ (List.mem_reverse.mp (listMax_mem _ hner))
    · exact le_listMax _ _ (List.mem_reverse.mpr (listMax_mem _ hne))

/-- Dividing through by a positive value scales the maximum. -/
theorem listMax_map_div (l : List ℚ) (m : ℚ) (hm : 0 < m) (hl : l ≠ []) :
    listMax (l.map (fun v => v / m)) = listMax l / m := by
  have hmapne : l.map (fun v => v / m) ≠ [] := by
    cases l with
    | nil => exact absurd rfl hl
    | cons a t => simp
  apply le_antisymm
  · obtain ⟨v, hv, hveq⟩ := List.mem_map.mp (listMax_mem _ hmapne)
    rw [← hveq]
    exact div_le_div_of_nonneg_right (le_listMax l v hv) (le_of_lt hm)
  · exact le_listMax _ _ (List.mem_map.mpr ⟨listMax l, listMax_mem l hl, rfl⟩)

/-- Defaulted indexing of a mapped list below its length. -/
theorem getD_map_lt {α β : Type} [Inhabited α] (f : α → β) (ts : List α) (i : ℕ)
    (hi : i < ts.length) (d : β) :
    (ts.map f).getD i d = f (ts.getD i default) := by
  rw [List.getD_eq_getElem?_getD, List.getElem?_map, List.getElem?_eq_getElem hi,
    List.getD_eq_getElem?_getD, List.getElem?_eq_getElem hi]
  rfl

/-- C9: in the spectra constructor, peak detection runs inside
generateVectors before ensureAscendingX and normalizeData: every stored
center-mode Peak (and side-mode list) is computed from the raw, possibly
descending, un-normalized trace; the stored amplitude is the raw maximum
of y1, while the y1 data exposed afterwards is the (possibly reversed)
trace divided by its own per-trace maximum, so its maximum is 1 — and on
a concrete trace with raw maximum 2 the stored amplitude stays 2. -/
theorem spectra_pipeline_spec (ts : List SpecTrace) :
    ((spectraBuild ts).centerModeData.length = ts.length ∧
      (spectraBuild ts).sideModeData.length = ts.length ∧
      (spectraBuild ts).y1List.length = ts.length) ∧
    (∀ i, i < ts.length →
      (spectraBuild ts).centerModeData.getD i default =
        centerPeakOf (ts.getD i default).x (ts.getD i default).y1 ∧
      (spectraBuild ts).sideModeData.getD i [] =
        sideModesOf (ts.getD i default).x (ts.getD i default).y1 ∧
      ((spectraBuild ts).centerModeData.getD i default).amplitude =
        listMax (ts.getD i default).y1 ∧
      (spectraBuild ts).y1List.getD i [] =
        (normSpecTrace (ensureAsc (ts.getD i default))).y1 ∧
      ((ts.getD i default).y1 ≠ [] → 0 < listMax (ts.getD i default).y1 →
        listMax ((spectraBuild ts).y1List.getD i []) = 1)) ∧
    (((spectraBuild [⟨1, [1, 2, 3], [1, 2, 1]⟩]).centerModeData.getD 0
        default).amplitude = 2 ∧
      (spectraBuild [⟨1, [1, 2, 3], [1, 2, 1]⟩]).y1List.getD 0 [] =
        [1 / 2, 1, 1 / 2]) := by
  refine ⟨⟨by simp [spectraBuild], by simp [spectraBuild], by simp [spectraBuild]⟩,
    ?_, ?_, ?_⟩
  · intro i hi
    have hcd : (spectraBuild ts).centerModeData.getD i default =
        centerPeakOf (ts.getD i default).x (ts.getD i default).y1 :=
      getD_map_lt _ ts i hi default
    have hsd : (spectraBuild ts).sideModeData.getD i [] =
        sideModesOf (ts.getD i default).x (ts.getD i default).y1 :=
      getD_map_lt _ ts i hi []
    have hy1 : (spectraBuild ts).y1List.getD i [] =
        (normSpecTrace (ensureAsc (ts.getD i default))).y1 := by
      show ((ts.map (fun t => normSpecTrace (ensureAsc t))).map SpecTrace.y1).getD
          i [] = _
      rw [List.map_map]
      exact getD_map_lt _ ts i hi []
    refine ⟨hcd, hsd, by rw [hcd]; rfl, hy1, ?_⟩
    intro hne hpos
    rw [hy1]
    have hm : listMax (ts.getD i default).y1 ≠ 0 := ne_of_gt hpos
    have hasc : (ensureAsc (ts.getD i default)).y1 = (ts.getD i default).y1 ∨
        (ensureAsc (ts.getD i default)).y1 = (ts.getD i default).y1.reverse := by
      rw [ensureAsc]
      split_ifs <;> simp
    have huy : listMax (ensureAsc (ts.getD i default)).y1 =
        listMax (ts.getD i default).y1 := by
      rcases hasc with ha | ha <;> rw [ha]
      exact listMax_reverse _
    have hune : (ensureAsc (ts.getD i default)).y1 ≠ [] := by
      rcases hasc with ha | ha <;> rw [ha]
      · exact hne
      · simpa using hne
    rw [normSpecTrace, if_neg hune]
    rw [if_neg (by rw [huy]; exact hm)]
    show listMax ((ensureAsc (ts.getD i default)).y1.map
      (fun v => v / listMax (ensureAsc (ts.getD i default)).y1)) = 1
    rw [listMax_map_div _ _ (by rw [huy]; exact hpos) hune, div_self (by rw [huy]; exact hm)]
  · show (centerPeakOf [1, 2, 3] [1, 2, 1]).amplitude = 2
    show listMax [1, 2, 1] = 2
    norm_num [listMax]
  · show (normSpecTrace (ensureAsc ⟨1, [1, 2, 3], [1, 2, 1]⟩)).y1 = [1 / 2, 1, 1 / 2]
    norm_num [normSpecTrace, ensureAsc, listMax]
    simp

/-- Witness for C9 at the concrete one-trace input: the exposed y1 of the
constructed set is normalized to maximum 1. -/
theorem spectra_pipeline_spec_witness :
    listMax ((spectraBuild [⟨1, [1, 2, 3], [1, 2, 1]⟩]).y1List.getD 0 []) = 1 :=
  ((spectra_pipeline_spec [⟨1, [1, 2, 3], [1, 2, 1]⟩]).2.1 0 (by norm_num)).2.2.2.2
    (by simp) (by norm_num [listMax])
